import Mathlib

/-!
Verification development for the EnvSync synchronization and client-side
encryption subsystem.

The first part embeds the server-side sync engine:
  - the `SyncState` / `SyncConflict` records of `backend/app/models/sync.py`,
  - the push / pull / conflict-resolution endpoints of `backend/app/api/sync.py`.
Database rows become Lean structures; each endpoint becomes a pure function
from the row(s) it reads to the row(s) it writes plus the HTTP outcome.
Python `int` columns are embedded as `Int`, nullable columns as `Option`,
and `datetime.now(timezone.utc)` as an abstract tick `now : Nat` supplied by
the caller.

The second part embeds the client/server cryptography
(`cli/envsync/crypto.py`, `backend/app/core/security.py`): UTF-8, base64,
SHA-256, HMAC, PBKDF2 and AES-256-GCM over byte lists (`List Nat`, every
byte `< 256`).
-/

namespace EnvSync

namespace Models

/-- `SyncStatus` of `backend/app/models/sync.py`. -/
inductive SyncStatus where
  | SYNCED
  | PENDING
  | CONFLICT
  | ERROR
deriving DecidableEq, Repr

/-- `ConflictResolution` of `backend/app/models/sync.py`. -/
inductive ConflictResolution where
  | LOCAL_WINS
  | REMOTE_WINS
  | MERGED
  | MANUAL
  | PENDING
deriving DecidableEq, Repr

/-- `SyncState` row of `backend/app/models/sync.py`: per (user, entity)
version counters, content hashes and status.  Column defaults are the
SQLAlchemy ones: versions `0`, status `PENDING`, everything nullable
`None`. -/
structure SyncState where
  id : String
  user_id : String
  entity_type : String
  entity_id : String
  local_version : Int := 0
  remote_version : Int := 0
  base_version : Int := 0
  local_hash : Option String := none
  remote_hash : Option String := none
  status : SyncStatus := .PENDING
  veilcloud_path : Option String := none
  veilcloud_etag : Option String := none
  last_local_change : Option Nat := none
  last_remote_change : Option Nat := none
  last_sync_at : Option Nat := none
  last_sync_error : Option String := none
deriving DecidableEq, Repr

/-- `SyncConflict` row of `backend/app/models/sync.py`.  Defaults:
`resolution = PENDING`, resolved fields `None`. -/
structure SyncConflict where
  id : String
  sync_state_id : String
  local_data : String
  remote_data : String
  base_data : Option String := none
  resolution : ConflictResolution := .PENDING
  resolved_data : Option String := none
  resolved_by_id : Option String := none
  detected_at : Nat := 0
  resolved_at : Option Nat := none
deriving DecidableEq, Repr

end Models

namespace Schemas

/-- `SyncPush` request schema of `backend/app/schemas/sync.py`. -/
structure SyncPush where
  entity_type : String
  entity_id : String
  data : String
  local_version : Int
  checksum : String
deriving DecidableEq, Repr

/-- One element of `SyncPull.entities` (`backend/app/schemas/sync.py`):
a dict `{"type": ..., "id": ..., "version": ...}`; the endpoint reads
`entity["type"]`, `entity["id"]` and `entity.get("version", 0)`, so the
version key may be absent. -/
structure PullEntity where
  type : String
  id : String
  version : Option Int := none
deriving DecidableEq, Repr

/-- One element of the `/pull` response's `updates` list
(`backend/app/api/sync.py`, `pull_changes`). -/
structure PullUpdate where
  type : String
  id : String
  version : Int
  data : String
deriving DecidableEq, Repr

/-- `ConflictResolution` request schema of `backend/app/schemas/sync.py`
(the resolve-endpoint body; distinct from the model enum of the same
name). -/
structure ConflictResolution where
  conflict_id : String
  resolution : Models.ConflictResolution
  resolved_data : Option String := none
deriving DecidableEq, Repr

end Schemas

namespace Api

open Models Schemas

/-- Outcome of `POST /push` (`push_changes` in `backend/app/api/sync.py`):
either an `HTTPException` carrying a status code together with the
`SyncConflict` row added to the session and the updated `SyncState`, or the
success body `{"success": ..., "version": ...}` together with the updated
`SyncState`. -/
inductive PushResult where
  | conflict (statusCode : Nat) (c : SyncConflict) (s : SyncState)
  | accepted (success : Bool) (version : Int) (s : SyncState)
deriving DecidableEq, Repr

/-- The `SyncState` row as it stands after the endpoint ran. -/
def PushResult.state : PushResult → SyncState
  | .conflict _ _ s => s
  | .accepted _ _ s => s

/-- `status.HTTP_409_CONFLICT`. -/
def HTTP_409_CONFLICT : Nat := 409

/-- `status.HTTP_404_NOT_FOUND`. -/
def HTTP_404_NOT_FOUND : Nat := 404

/-- The get-or-create step of `push_changes` (`backend/app/api/sync.py`,
lines 144-160): reuse the row found for `(user, entity_type, entity_id)`,
else insert a fresh one with column defaults and
`veilcloud_path = f"{data.entity_type}s/{data.entity_id}"`. -/
def getOrCreateSyncState (found : Option SyncState) (newId : String)
    (userId : String) (data : SyncPush) : SyncState :=
  match found with
  | some s => s
  | none =>
    { id := newId
      user_id := userId
      entity_type := data.entity_type
      entity_id := data.entity_id
      veilcloud_path := some (data.entity_type ++ "s/" ++ data.entity_id) }

/-- Core of `push_changes` (`backend/app/api/sync.py`, lines 162-192),
applied to the sync state obtained from `getOrCreateSyncState`.
`now` stands for `datetime.now(timezone.utc)` and `conflictId` for the
`uuid.uuid4()` drawn in the conflict branch. -/
def push_changes (sync_state : SyncState) (data : SyncPush) (now : Nat)
    (conflictId : String) : PushResult :=
  if sync_state.remote_version > sync_state.base_version ∧
      data.local_version ≤ sync_state.base_version then
    PushResult.conflict HTTP_409_CONFLICT
      { id := conflictId
        sync_state_id := sync_state.id
        local_data := data.data
        remote_data := ""  -- "Would be fetched from VeilCloud"
        detected_at := now }
      { sync_state with status := SyncStatus.CONFLICT }
  else
    PushResult.accepted true data.local_version
      { sync_state with
        local_version := data.local_version
        remote_version := data.local_version
        base_version := data.local_version
        local_hash := some data.checksum
        remote_hash := some data.checksum
        status := SyncStatus.SYNCED
        last_sync_at := some now
        last_local_change := some now }

/-- Per-entity body of the loop in `pull_changes` (`backend/app/api/sync.py`,
lines 210-227): an update is appended exactly when a sync state exists for
the entity and `sync_state.remote_version > entity.get("version", 0)`;
its payload is `""` ("Would contain encrypted data from VeilCloud"). -/
def pullEntry (store : String → String → Option SyncState)
    (entity : PullEntity) : Option PullUpdate :=
  match store entity.type entity.id with
  | some sync_state =>
    if sync_state.remote_version > entity.version.getD 0 then
      some { type := entity.type
             id := entity.id
             version := sync_state.remote_version
             data := "" }
    else none
  | none => none

/-- `pull_changes` (`backend/app/api/sync.py`, lines 195-229): the
`updates` list of the response, built by iterating `pullEntry` over the
requested entities.  `store` abstracts the per-user `SyncState` lookup by
`(entity_type, entity_id)`. -/
def pull_changes (store : String → String → Option SyncState)
    (entities : List PullEntity) : List PullUpdate :=
  entities.filterMap (pullEntry store)

/-- `resolve_conflict` (`backend/app/api/sync.py`, lines 263-295).
`found` is the row of the `SyncConflict` with the given id owned by
the current user, paired with its `sync_state` row; `none` yields the 404.
On a hit the endpoint unconditionally overwrites the resolution fields and
sets the state's status to `SYNCED`, returning `{"success": True}`. -/
def resolve_conflict (found : Option (SyncConflict × SyncState))
    (data : Schemas.ConflictResolution) (userId : String) (now : Nat) :
    Except Nat (SyncConflict × SyncState × Bool) :=
  match found with
  | none => Except.error HTTP_404_NOT_FOUND
  | some (conflict, sync_state) =>
    Except.ok
      ({ conflict with
          resolution := data.resolution
          resolved_data := data.resolved_data
          resolved_by_id := some userId
          resolved_at := some now },
       { sync_state with status := SyncStatus.SYNCED },
       true)

/-- One client-visible operation touching a given `SyncState` row, for the
temporal claims: a push (with its request and ambient inputs), a pull
(which only reads), or a conflict resolution (with the conflict row the
endpoint found). -/
inductive SyncOp where
  | push (data : SyncPush) (now : Nat) (conflictId : String)
  | pull (entity : PullEntity)
  | resolve (conflict : SyncConflict) (data : Schemas.ConflictResolution)
      (userId : String) (now : Nat)
deriving Repr

/-- Effect of one operation on a `SyncState` row, read off the endpoint
embeddings: push via `push_changes`; pull leaves the row untouched
(`pull_changes` only reads); resolve via `resolve_conflict` on the found
conflict. -/
def applyOp (s : SyncState) : SyncOp → SyncState
  | .push data now conflictId => (push_changes s data now conflictId).state
  | .pull _ => s
  | .resolve conflict data userId now =>
    match resolve_conflict (some (conflict, s)) data userId now with
    | .ok (_, s', _) => s'
    | .error _ => s

end Api

/-! ## Cryptography

Embedding of the client-side crypto (`src/cli/envsync/crypto.py`) and the
server crypto module (`src/backend/app/core/security.py`).  Byte strings
are `List Nat` with every byte `< 256`.  The Python code delegates to
`hashlib.pbkdf2_hmac("sha256", ...)`, `cryptography`'s `AESGCM`,
`base64.b64encode/b64decode` and `str.encode("utf-8")`/`bytes.decode`;
those primitives are implemented below from their standards (FIPS 180-4,
RFC 2104, RFC 8018, FIPS 197, NIST SP 800-38D, RFC 4648, RFC 3629) so the
repository's functions can be defined on top of them exactly as the
source composes them.
-/

namespace Crypto

/-- Bytewise XOR (`bytes(a ^ b for ...)`), the length of the shorter
operand prevailing. -/
def xorBytes (a b : List Nat) : List Nat := List.zipWith Nat.xor a b

/-- Big-endian 4-byte encoding of a 32-bit value. -/
def be32 (n : Nat) : List Nat :=
  [n / 16777216 % 256, n / 65536 % 256, n / 256 % 256, n % 256]

/-- Big-endian 8-byte encoding of a 64-bit value. -/
def be64 (n : Nat) : List Nat :=
  [n / 72057594037927936 % 256, n / 281474976710656 % 256,
   n / 1099511627776 % 256, n / 4294967296 % 256,
   n / 16777216 % 256, n / 65536 % 256, n / 256 % 256, n % 256]

/-! ### UTF-8 (RFC 3629), the semantics of `str.encode("utf-8")` and
`bytes.decode("utf-8")` -/

/-- UTF-8 bytes of one unicode scalar value. -/
def utf8EncodeChar (c : Nat) : List Nat :=
  if c < 0x80 then [c]
  else if c < 0x800 then [0xC0 + c / 64, 0x80 + c % 64]
  else if c < 0x10000 then
    [0xE0 + c / 4096, 0x80 + c / 64 % 64, 0x80 + c % 64]
  else
    [0xF0 + c / 262144, 0x80 + c / 4096 % 64, 0x80 + c / 64 % 64,
     0x80 + c % 64]

/-- `str.encode("utf-8")`. -/
def utf8Encode (s : String) : List Nat :=
  s.data.flatMap (fun ch => utf8EncodeChar ch.toNat)

/-- One step of strict UTF-8 decoding: given a lead byte and the bytes
after it, the decoded code point and how many continuation bytes it
consumed; `none` on malformed input (truncated sequences, stray
continuation bytes, overlong forms, surrogates and values past
`0x10FFFF` are rejected, as Python's strict `bytes.decode("utf-8")`
does). -/
def utf8DecodeStep (b0 : Nat) (rest : List Nat) : Option (Nat × Nat) :=
  if b0 < 0x80 then some (b0, 0)
  else if b0 < 0xC2 then none
  else if b0 < 0xE0 then
    match rest with
    | b1 :: _ =>
      if 0x80 ≤ b1 ∧ b1 < 0xC0 then
        some ((b0 - 0xC0) * 64 + (b1 - 0x80), 1)
      else none
    | [] => none
  else if b0 < 0xF0 then
    match rest with
    | b1 :: b2 :: _ =>
      if 0x80 ≤ b1 ∧ b1 < 0xC0 ∧ 0x80 ≤ b2 ∧ b2 < 0xC0 then
        let c := (b0 - 0xE0) * 4096 + (b1 - 0x80) * 64 + (b2 - 0x80)
        if 0x800 ≤ c ∧ ¬(0xD800 ≤ c ∧ c < 0xE000) then some (c, 2) else none
      else none
    | _ => none
  else if b0 < 0xF5 then
    match rest with
    | b1 :: b2 :: b3 :: _ =>
      if 0x80 ≤ b1 ∧ b1 < 0xC0 ∧ 0x80 ≤ b2 ∧ b2 < 0xC0 ∧
          0x80 ≤ b3 ∧ b3 < 0xC0 then
        let c := (b0 - 0xF0) * 262144 + (b1 - 0x80) * 4096 +
          (b2 - 0x80) * 64 + (b3 - 0x80)
        if 0x10000 ≤ c ∧ c < 0x110000 then some (c, 3) else none
      else none
    | _ => none
  else none

/-- Strict UTF-8 decoding of a whole byte stream to code points. -/
def utf8DecodeAux : List Nat → Option (List Nat)
  | [] => some []
  | b0 :: rest =>
    match utf8DecodeStep b0 rest with
    | some cn => (utf8DecodeAux (rest.drop cn.2)).map (fun cs => cn.1 :: cs)
    | none => none
termination_by l => l.length
decreasing_by simp [List.length_drop]; omega

/-- `bytes.decode("utf-8")` (strict). -/
def utf8Decode (bytes : List Nat) : Option String :=
  (utf8DecodeAux bytes).map (fun cs => String.mk (cs.map Char.ofNat))

/-! ### Base64 (RFC 4648), the semantics of `base64.b64encode` /
`base64.b64decode` -/

/-- The standard base64 alphabet. -/
def b64Alphabet : List Char :=
  "ABCDEFGHIJKLMNOPQRSTUVWXYZabcdefghijklmnopqrstuvwxyz0123456789+/".data

/-- Character for a 6-bit group. -/
def b64CharOf (n : Nat) : Char := b64Alphabet.getD n 'A'

/-- 6-bit group of a character, `none` when it is not in the alphabet. -/
def b64SextetOf (c : Char) : Option Nat :=
  b64Alphabet.findIdx? (fun a => a = c)

/-- `base64.b64encode`: three bytes into four characters, the final group
padded with `=`. -/
def b64Encode : List Nat → List Char
  | [] => []
  | [b0] => [b64CharOf (b0 / 4), b64CharOf (b0 % 4 * 16), '=', '=']
  | [b0, b1] =>
    [b64CharOf (b0 / 4), b64CharOf (b0 % 4 * 16 + b1 / 16),
     b64CharOf (b1 % 16 * 4), '=']
  | b0 :: b1 :: b2 :: rest =>
    b64CharOf (b0 / 4) :: b64CharOf (b0 % 4 * 16 + b1 / 16) ::
    b64CharOf (b1 % 16 * 4 + b2 / 64) :: b64CharOf (b2 % 64) ::
    b64Encode rest

/-- `base64.b64decode` (validating): four characters into three bytes,
with `=`-padding closing the stream. -/
def b64Decode : List Char → Option (List Nat)
  | [] => some []
  | c0 :: c1 :: c2 :: c3 :: rest =>
    if c2 = '=' ∧ c3 = '=' ∧ rest = [] then
      match b64SextetOf c0, b64SextetOf c1 with
      | some s0, some s1 => some [s0 * 4 + s1 / 16]
      | _, _ => none
    else if c3 = '=' ∧ rest = [] then
      match b64SextetOf c0, b64SextetOf c1, b64SextetOf c2 with
      | some s0, some s1, some s2 =>
        some [s0 * 4 + s1 / 16, s1 % 16 * 16 + s2 / 4]
      | _, _, _ => none
    else
      match b64SextetOf c0, b64SextetOf c1, b64SextetOf c2,
          b64SextetOf c3, b64Decode rest with
      | some s0, some s1, some s2, some s3, some tail =>
        some ((s0 * 4 + s1 / 16) :: (s1 % 16 * 16 + s2 / 4) ::
          (s2 % 4 * 64 + s3) :: tail)
      | _, _, _, _, _ => none
  | _ => none

/-! ### SHA-256 (FIPS 180-4), HMAC (RFC 2104) and PBKDF2 (RFC 8018) —
the semantics of `hashlib.pbkdf2_hmac("sha256", ...)` -/

/-- Truncation to a 32-bit word. -/
def w32 (x : Nat) : Nat := x % 4294967296

/-- Right rotation of a 32-bit word by `n` places. -/
def rotr32 (n x : Nat) : Nat := w32 (x / 2 ^ n + x % 2 ^ n * 2 ^ (32 - n))

/-- The 64 SHA-256 round constants (FIPS 180-4 §4.2.2, in decimal). -/
def sha256K : List Nat :=
  [1116352408, 1899447441, 3049323471, 3921009573, 961987163,
   1508970993, 2453635748, 2870763221, 3624381080, 310598401,
   607225278, 1426881987, 1925078388, 2162078206, 2614888103,
   3248222580, 3835390401, 4022224774, 264347078, 604807628,
   770255983, 1249150122, 1555081692, 1996064986, 2554220882,
   2821834349, 2952996808, 3210313671, 3336571891, 3584528711,
   113926993, 338241895, 666307205, 773529912, 1294757372,
   1396182291, 1695183700, 1986661051, 2177026350, 2456956037,
   2730485921, 2820302411, 3259730800, 3345764771, 3516065817,
   3600352804, 4094571909, 275423344, 430227734, 506948616,
   659060556, 883997877, 958139571, 1322822218, 1537002063,
   1747873779, 1955562222, 2024104815, 2227730452, 2361852424,
   2428436474, 2756734187, 3204031479, 3329325298]

/-- The SHA-256 initial hash value (FIPS 180-4 §5.3.3, in decimal). -/
def sha256H0 : List Nat :=
  [1779033703, 3144134277, 1013904242, 2773480762, 1359893119,
   2600822924, 528734635, 1541459225]

/-- Big-endian 32-bit words of a byte list (groups of four). -/
def toWords : List Nat → List Nat
  | b0 :: b1 :: b2 :: b3 :: rest =>
    (b0 * 16777216 + b1 * 65536 + b2 * 256 + b3) :: toWords rest
  | _ => []

/-- The 64-entry message schedule extending a 16-word block. -/
def sha256Schedule (block : List Nat) : List Nat :=
  (List.range 48).foldl
    (fun w _ =>
      let i := w.length
      let x15 := w.getD (i - 15) 0
      let x2 := w.getD (i - 2) 0
      let s0 := rotr32 7 x15 ^^^ rotr32 18 x15 ^^^ x15 / 2 ^ 3
      let s1 := rotr32 17 x2 ^^^ rotr32 19 x2 ^^^ x2 / 2 ^ 10
      w ++ [w32 (w.getD (i - 16) 0 + s0 + w.getD (i - 7) 0 + s1)])
    block

/-- One SHA-256 compression round: `kw` is the (already added) round
constant plus schedule word. -/
def sha256Round (st : List Nat) (kw : Nat) : List Nat :=
  match st with
  | [a, b, c, d, e, f, g, h] =>
    let S1 := rotr32 6 e ^^^ rotr32 11 e ^^^ rotr32 25 e
    let ch := (e &&& f) ^^^ ((e ^^^ 4294967295) &&& g)
    let temp1 := w32 (h + S1 + ch + kw)
    let S0 := rotr32 2 a ^^^ rotr32 13 a ^^^ rotr32 22 a
    let maj := (a &&& b) ^^^ (a &&& c) ^^^ (b &&& c)
    let temp2 := w32 (S0 + maj)
    [w32 (temp1 + temp2), a, b, c, w32 (d + temp1), e, f, g]
  | _ => st

/-- SHA-256 compression of one 64-byte block into the chaining value. -/
def sha256Compress (h : List Nat) (block : List Nat) : List Nat :=
  let ws := sha256Schedule (toWords block)
  let kws := List.zipWith (fun k w => w32 (k + w)) sha256K ws
  let st := kws.foldl sha256Round h
  List.zipWith (fun x y => w32 (x + y)) h st

/-- Merkle–Damgård padding: `0x80`, zeros to 56 mod 64, 64-bit bit
length. -/
def sha256Pad (msg : List Nat) : List Nat :=
  msg ++ [0x80] ++ List.replicate ((119 - msg.length % 64) % 64) 0 ++
    be64 (msg.length * 8)

/-- Iterate the compression function over the 64-byte blocks. -/
def sha256Blocks (h : List Nat) : List Nat → List Nat
  | [] => h
  | b :: rest =>
    sha256Blocks (sha256Compress h ((b :: rest).take 64)) ((b :: rest).drop 64)
termination_by l => l.length
decreasing_by simp [List.length_drop]; omega

/-- Big-endian bytes of one 32-bit word. -/
def wordBytes (w : Nat) : List Nat :=
  [w / 16777216 % 256, w / 65536 % 256, w / 256 % 256, w % 256]

/-- `hashlib.sha256(msg).digest()`. -/
def sha256 (msg : List Nat) : List Nat :=
  (sha256Blocks sha256H0 (sha256Pad msg)).flatMap wordBytes

/-- HMAC-SHA256 (RFC 2104): block size 64 bytes. -/
def hmacSha256 (key msg : List Nat) : List Nat :=
  let k1 := if 64 < key.length then sha256 key else key
  let k2 := k1 ++ List.replicate (64 - k1.length) 0
  let ipadKey := k2.map (fun b => b ^^^ 0x36)
  let opadKey := k2.map (fun b => b ^^^ 0x5C)
  sha256 (opadKey ++ sha256 (ipadKey ++ msg))

/-- One PBKDF2 block `F(P, S, c, i) = U₁ ⊕ U₂ ⊕ ⋯ ⊕ U_c` with
`U₁ = HMAC(P, S ∥ INT(i))`, `Uⱼ = HMAC(P, U_{j-1})`. -/
def pbkdf2F (password salt : List Nat) (c i : Nat) : List Nat :=
  let u1 := hmacSha256 password (salt ++ be32 i)
  ((List.range (c - 1)).foldl
    (fun (acc : List Nat × List Nat) _ =>
      let u := hmacSha256 password acc.2
      (xorBytes acc.1 u, u))
    (u1, u1)).1

/-- `hashlib.pbkdf2_hmac("sha256", password, salt, iterations, dklen)`. -/
def pbkdf2HmacSha256 (password salt : List Nat)
    (iterations dklen : Nat) : List Nat :=
  (((List.range ((dklen + 31) / 32)).flatMap
    (fun i => pbkdf2F password salt iterations (i + 1))).take dklen)

/-! ### AES-256 (FIPS 197) and GCM (NIST SP 800-38D) — the semantics of
`cryptography.hazmat.primitives.ciphers.aead.AESGCM` -/

/-- The AES S-box. -/
def sbox : List Nat :=
  [0x63, 0x7c, 0x77, 0x7b, 0xf2, 0x6b, 0x6f, 0xc5,
   0x30, 0x01, 0x67, 0x2b, 0xfe, 0xd7, 0xab, 0x76,
   0xca, 0x82, 0xc9, 0x7d, 0xfa, 0x59, 0x47, 0xf0,
   0xad, 0xd4, 0xa2, 0xaf, 0x9c, 0xa4, 0x72, 0xc0,
   0xb7, 0xfd, 0x93, 0x26, 0x36, 0x3f, 0xf7, 0xcc,
   0x34, 0xa5, 0xe5, 0xf1, 0x71, 0xd8, 0x31, 0x15,
   0x04, 0xc7, 0x23, 0xc3, 0x18, 0x96, 0x05, 0x9a,
   0x07, 0x12, 0x80, 0xe2, 0xeb, 0x27, 0xb2, 0x75,
   0x09, 0x83, 0x2c, 0x1a, 0x1b, 0x6e, 0x5a, 0xa0,
   0x52, 0x3b, 0xd6, 0xb3, 0x29, 0xe3, 0x2f, 0x84,
   0x53, 0xd1, 0x00, 0xed, 0x20, 0xfc, 0xb1, 0x5b,
   0x6a, 0xcb, 0xbe, 0x39, 0x4a, 0x4c, 0x58, 0xcf,
   0xd0, 0xef, 0xaa, 0xfb, 0x43, 0x4d, 0x33, 0x85,
   0x45, 0xf9, 0x02, 0x7f, 0x50, 0x3c, 0x9f, 0xa8,
   0x51, 0xa3, 0x40, 0x8f, 0x92, 0x9d, 0x38, 0xf5,
   0xbc, 0xb6, 0xda, 0x21, 0x10, 0xff, 0xf3, 0xd2,
   0xcd, 0x0c, 0x13, 0xec, 0x5f, 0x97, 0x44, 0x17,
   0xc4, 0xa7, 0x7e, 0x3d, 0x64, 0x5d, 0x19, 0x73,
   0x60, 0x81, 0x4f, 0xdc, 0x22, 0x2a, 0x90, 0x88,
   0x46, 0xee, 0xb8, 0x14, 0xde, 0x5e, 0x0b, 0xdb,
   0xe0, 0x32, 0x3a, 0x0a, 0x49, 0x06, 0x24, 0x5c,
   0xc2, 0xd3, 0xac, 0x62, 0x91, 0x95, 0xe4, 0x79,
   0xe7, 0xc8, 0x37, 0x6d, 0x8d, 0xd5, 0x4e, 0xa9,
   0x6c, 0x56, 0xf4, 0xea, 0x65, 0x7a, 0xae, 0x08,
   0xba, 0x78, 0x25, 0x2e, 0x1c, 0xa6, 0xb4, 0xc6,
   0xe8, 0xdd, 0x74, 0x1f, 0x4b, 0xbd, 0x8b, 0x8a,
   0x70, 0x3e, 0xb5, 0x66, 0x48, 0x03, 0xf6, 0x0e,
   0x61, 0x35, 0x57, 0xb9, 0x86, 0xc1, 0x1d, 0x9e,
   0xe1, 0xf8, 0x98, 0x11, 0x69, 0xd9, 0x8e, 0x94,
   0x9b, 0x1e, 0x87, 0xe9, 0xce, 0x55, 0x28, 0xdf,
   0x8c, 0xa1, 0x89, 0x0d, 0xbf, 0xe6, 0x42, 0x68,
   0x41, 0x99, 0x2d, 0x0f, 0xb0, 0x54, 0xbb, 0x16]

/-- S-box substitution of one byte. -/
def subByte (b : Nat) : Nat := sbox.getD b 0

/-- Multiplication by `x` in GF(2⁸) modulo the AES polynomial. -/
def xtime (b : Nat) : Nat :=
  (if 128 ≤ b then b * 2 ^^^ 0x1B else b * 2) % 256

/-- Rotate a 4-byte key-schedule word left by one byte. -/
def rotWord : List Nat → List Nat
  | [a, b, c, d] => [b, c, d, a]
  | w => w

/-- S-box substitution on a key-schedule word. -/
def subWord (w : List Nat) : List Nat := w.map subByte

/-- Round constant word `Rcon[i]`. -/
def rconWord (i : Nat) : List Nat :=
  [[1, 2, 4, 8, 16, 32, 64, 128, 27, 54].getD (i - 1) 0, 0, 0, 0]

/-- Word `i` of the AES-256 key schedule (`Nk = 8`, 60 words). -/
def keyWord (key : List Nat) (i : Nat) : List Nat :=
  if _h8 : i < 8 then (key.drop (4 * i)).take 4
  else if i % 8 = 0 then
    xorBytes (keyWord key (i - 8))
      (xorBytes (subWord (rotWord (keyWord key (i - 1)))) (rconWord (i / 8)))
  else if i % 8 = 4 then
    xorBytes (keyWord key (i - 8)) (subWord (keyWord key (i - 1)))
  else
    xorBytes (keyWord key (i - 8)) (keyWord key (i - 1))
termination_by i
decreasing_by all_goals omega

/-- The 16-byte round key of round `r`. -/
def roundKey (key : List Nat) (r : Nat) : List Nat :=
  keyWord key (4 * r) ++ keyWord key (4 * r + 1) ++
  keyWord key (4 * r + 2) ++ keyWord key (4 * r + 3)

/-- SubBytes on the 16-byte state. -/
def subBytes (st : List Nat) : List Nat := st.map subByte

/-- ShiftRows on the 16-byte column-major state. -/
def shiftRows (s : List Nat) : List Nat :=
  [s.getD 0 0, s.getD 5 0, s.getD 10 0, s.getD 15 0,
   s.getD 4 0, s.getD 9 0, s.getD 14 0, s.getD 3 0,
   s.getD 8 0, s.getD 13 0, s.getD 2 0, s.getD 7 0,
   s.getD 12 0, s.getD 1 0, s.getD 6 0, s.getD 11 0]

/-- MixColumns on the 16-byte column-major state. -/
def mixColumns (s : List Nat) : List Nat :=
  (List.range 4).flatMap (fun c =>
    let a := s.getD (4 * c) 0
    let b := s.getD (4 * c + 1) 0
    let d := s.getD (4 * c + 2) 0
    let e := s.getD (4 * c + 3) 0
    [xtime a ^^^ (xtime b ^^^ b) ^^^ d ^^^ e,
     a ^^^ xtime b ^^^ (xtime d ^^^ d) ^^^ e,
     a ^^^ b ^^^ xtime d ^^^ (xtime e ^^^ e),
     (xtime a ^^^ a) ^^^ b ^^^ d ^^^ xtime e])

/-- One full middle round. -/
def aesRound (key : List Nat) (st : List Nat) (r : Nat) : List Nat :=
  xorBytes (mixColumns (shiftRows (subBytes st))) (roundKey key r)

/-- AES-256 encryption of one 16-byte block (14 rounds, the last without
MixColumns). -/
def aesBlock (key block : List Nat) : List Nat :=
  let st0 := xorBytes block (roundKey key 0)
  let stMain := (List.range 13).foldl (fun st r => aesRound key st (r + 1)) st0
  xorBytes (shiftRows (subBytes stMain)) (roundKey key 14)

/-- CTR keystream for GCM with a 12-byte nonce: blocks
`AES_K(nonce ∥ ctr)` for `ctr = 2, 3, …`, truncated to `n` bytes. -/
def ctrKeystream (key nonce : List Nat) (n : Nat) : List Nat :=
  (((List.range ((n + 15) / 16)).flatMap
    (fun i => aesBlock key (nonce ++ be32 ((i + 2) % 4294967296)))).take n)

/-- A 16-byte block as a 128-bit big-endian value. -/
def bytesToNat (l : List Nat) : Nat := l.foldl (fun acc b => acc * 256 + b) 0

/-- 16 big-endian bytes of a 128-bit value. -/
def nat128Bytes (n : Nat) : List Nat :=
  (List.range 16).map (fun i => n / 2 ^ (8 * (15 - i)) % 256)

/-- Multiplication in GF(2¹²⁸) with GCM's reduction polynomial
(bit-reflected convention of SP 800-38D). -/
def gfMul (x y : Nat) : Nat :=
  ((List.range 128).foldl
    (fun (zv : Nat × Nat) i =>
      let z := if x / 2 ^ (127 - i) % 2 = 1 then zv.1 ^^^ zv.2 else zv.1
      let v := if zv.2 % 2 = 1 then zv.2 / 2 ^^^ 0xE1000000000000000000000000000000
        else zv.2 / 2
      (z, v))
    (0, y)).1

/-- GHASH folding over 16-byte blocks. -/
def ghashRec (h y : Nat) : List Nat → Nat
  | [] => y
  | b :: rest =>
    ghashRec h (gfMul (y ^^^ bytesToNat ((b :: rest).take 16)) h)
      ((b :: rest).drop 16)
termination_by l => l.length
decreasing_by simp [List.length_drop]; omega

/-- The GCM authentication tag over ciphertext `ct` (no associated
data): `AES_K(J₀) ⊕ GHASH_H(pad(ct) ∥ len(A) ∥ len(ct))`. -/
def gcmTag (key nonce ct : List Nat) : List Nat :=
  let h := bytesToNat (aesBlock key (List.replicate 16 0))
  let ghIn := ct ++ List.replicate ((16 - ct.length % 16) % 16) 0 ++
    be64 0 ++ be64 (ct.length * 8)
  xorBytes (aesBlock key (nonce ++ [0, 0, 0, 1])) (nat128Bytes (ghashRec h 0 ghIn))

/-- `AESGCM(key).encrypt(nonce, pt, None)`: ciphertext with the 16-byte
tag appended. -/
def aesgcmEncrypt (key nonce pt : List Nat) : List Nat :=
  let ct := xorBytes pt (ctrKeystream key nonce pt.length)
  ct ++ gcmTag key nonce ct

/-- `AESGCM(key).decrypt(nonce, data, None)`: splits off the trailing
16-byte tag, recomputes it, and fails (`InvalidTag`) on mismatch. -/
def aesgcmDecrypt (key nonce data : List Nat) : Option (List Nat) :=
  if data.length < 16 then none
  else
    let ct := data.take (data.length - 16)
    let tag := data.drop (data.length - 16)
    if gcmTag key nonce ct = tag then
      some (xorBytes ct (ctrKeystream key nonce ct.length))
    else none

end Crypto

namespace Security

open Crypto

/-!
Embedding of `src/backend/app/core/security.py` (the server crypto
module).  Randomness (`secrets.token_bytes`) becomes an explicit `nonce`
argument at each call that draws it.
-/

/-- `derive_key` (security.py:40-53): PBKDF2-HMAC-SHA256 of
`password.encode()` with 100000 iterations and `dklen=32`. -/
def derive_key (password : String) (salt : List Nat) : List Nat :=
  pbkdf2HmacSha256 (utf8Encode password) salt 100000 32

/-- `encrypt_data` (security.py:61-69): AES-256-GCM with a fresh 12-byte
nonce (passed in); returns `(nonce, ciphertext)`. -/
def encrypt_data (plaintext key nonce : List Nat) : List Nat × List Nat :=
  (nonce, aesgcmEncrypt key nonce plaintext)

/-- `decrypt_data` (security.py:72-77). -/
def decrypt_data (nonce ciphertext key : List Nat) : Option (List Nat) :=
  aesgcmDecrypt key nonce ciphertext

/-- `encrypt_string` (security.py:80-87): wire format
`base64(nonce ∥ ciphertext)`. -/
def encrypt_string (plaintext : String) (key nonce : List Nat) : String :=
  let nc := encrypt_data (utf8Encode plaintext) key nonce
  String.mk (b64Encode (nc.1 ++ nc.2))

/-- `decrypt_string` (security.py:90-98): base64-decode, split the first
12 bytes off as the nonce, decrypt, UTF-8-decode.  Any failing step
raises in Python, embedded as `none`. -/
def decrypt_string (encrypted : String) (key : List Nat) : Option String :=
  match b64Decode encrypted.data with
  | none => none
  | some combined =>
    match decrypt_data (combined.take 12) (combined.drop 12) key with
    | none => none
    | some plaintext => utf8Decode plaintext

end Security

namespace CryptoHelper

open Crypto

/-!
Embedding of the `CryptoHelper` class of `src/cli/envsync/crypto.py`.
`self.key` is passed explicitly; the random nonce drawn inside `encrypt`
is an explicit argument.
-/

/-- `CryptoHelper._derive_key` (crypto.py:30-41): PBKDF2-HMAC-SHA256 of
`password.encode("utf-8")` with 100000 iterations and `dklen=32`. -/
def _derive_key (password : String) (salt : List Nat) : List Nat :=
  pbkdf2HmacSha256 (utf8Encode password) salt 100000 32

/-- `CryptoHelper.encrypt` (crypto.py:43-60): returns
`(base64(ciphertext-with-tag), base64(nonce))`. -/
def encrypt (key : List Nat) (plaintext : String) (nonce : List Nat) :
    String × String :=
  let ciphertext := aesgcmEncrypt key nonce (utf8Encode plaintext)
  (String.mk (b64Encode ciphertext), String.mk (b64Encode nonce))

/-- `CryptoHelper.decrypt` (crypto.py:62-79): base64-decode value and
nonce, AES-GCM-decrypt, UTF-8-decode; failures raise in Python, embedded
as `none`. -/
def decrypt (key : List Nat) (encrypted_value nonce : String) :
    Option String :=
  match b64Decode encrypted_value.data, b64Decode nonce.data with
  | some ciphertext, some nonce_bytes =>
    match aesgcmDecrypt key nonce_bytes ciphertext with
    | none => none
    | some plaintext => utf8Decode plaintext
  | _, _ => none

end CryptoHelper

/-! Concrete rows and requests used to instantiate the claims below. -/

namespace Examples

open Models Schemas Api

/-- A push request claiming version 1 for a fresh entity. -/
def freshPush : SyncPush :=
  { entity_type := "project", entity_id := "e1", data := "ciphertext"
    local_version := 1, checksum := "abc" }

/-- The state `getOrCreateSyncState` makes on a miss for `freshPush`. -/
def freshState : SyncState := getOrCreateSyncState none "sid" "uid" freshPush

/-- The state after pushing `freshPush` onto `freshState` at tick 5. -/
def freshPushedState : SyncState := (push_changes freshState freshPush 5 "cid").state

/-- The spec scenario row `base_version=5, remote_version=7` (a remote
change not yet incorporated locally). -/
def staleState : SyncState :=
  { id := "s2", user_id := "uid", entity_type := "project", entity_id := "e2"
    local_version := 6, remote_version := 7, base_version := 5
    local_hash := some "lh", remote_hash := some "rh", status := .SYNCED }

/-- A push from the stale basis: claims version 5 ≤ base_version. -/
def stalePush : SyncPush :=
  { entity_type := "project", entity_id := "e2", data := "localCipher"
    local_version := 5, checksum := "ck" }

/-- A row already in conflict, `local_version=6, remote_version=7,
base_version=5`. -/
def conflictedState : SyncState :=
  { id := "s3", user_id := "uid", entity_type := "project", entity_id := "e3"
    local_version := 6, remote_version := 7, base_version := 5
    status := .CONFLICT }

/-- The pending conflict row on `conflictedState`. -/
def pendingConflict : SyncConflict :=
  { id := "c3", sync_state_id := "s3", local_data := "L", remote_data := "" }

/-- A `local_wins` resolution request for `pendingConflict`. -/
def localWinsReq : Schemas.ConflictResolution :=
  { conflict_id := "c3", resolution := .LOCAL_WINS }

/-- A conflict row that is already terminal (`local_wins`). -/
def resolvedConflict : SyncConflict :=
  { id := "c4", sync_state_id := "s3", local_data := "L", remote_data := ""
    resolution := .LOCAL_WINS, resolved_by_id := some "uid"
    resolved_at := some 3 }

/-- A second, `remote_wins` resolution request aimed at `resolvedConflict`. -/
def remoteWinsReq : Schemas.ConflictResolution :=
  { conflict_id := "c4", resolution := .REMOTE_WINS }

/-- A fully synced row at version 5. -/
def syncedState5 : SyncState :=
  { id := "s5", user_id := "uid", entity_type := "project", entity_id := "e5"
    local_version := 5, remote_version := 5, base_version := 5
    status := .SYNCED }

/-- A push onto `syncedState5` claiming the lower version 3. -/
def lowVersionPush : SyncPush :=
  { entity_type := "project", entity_id := "e5", data := "d"
    local_version := 3, checksum := "k" }

end Examples

end EnvSync

/-! # Claims about the sync engine -/

namespace EnvSync

open Models Schemas Api

/-- **C1.** A push is answered with the distinct conflict signal HTTP 409
and a `SyncConflict` row if and only if the entity's `SyncState` satisfies
`remote_version > base_version` and the claimed `local_version ≤
base_version`; in every other case the push is accepted with
`{"success": true, "version": claimedLocalVersion}`. -/
theorem push_conflict_iff_stale_basis (sync_state : SyncState)
    (data : SyncPush) (now : Nat) (conflictId : String) :
    ((∃ c s', push_changes sync_state data now conflictId =
        PushResult.conflict HTTP_409_CONFLICT c s') ↔
      (sync_state.remote_version > sync_state.base_version ∧
        data.local_version ≤ sync_state.base_version)) ∧
    ((∃ s', push_changes sync_state data now conflictId =
        PushResult.accepted true data.local_version s') ↔
      ¬(sync_state.remote_version > sync_state.base_version ∧
        data.local_version ≤ sync_state.base_version)) := by
  unfold push_changes
  by_cases h : sync_state.remote_version > sync_state.base_version ∧
      data.local_version ≤ sync_state.base_version
  · simp [h]
  · simp [h]

/-- **C2.** Every accepted push with claimed version `v` and checksum `c`
leaves the `SyncState` with `local_version = remote_version = base_version
= v`, both hashes equal to `c`, status `SYNCED`, and `last_sync_at`
stamped (non-null). -/
theorem push_accept_advances (sync_state : SyncState) (data : SyncPush)
    (now : Nat) (conflictId : String) (ok : Bool) (v : Int) (s' : SyncState)
    (h : push_changes sync_state data now conflictId =
      PushResult.accepted ok v s') :
    v = data.local_version ∧
    s'.local_version = data.local_version ∧
    s'.remote_version = data.local_version ∧
    s'.base_version = data.local_version ∧
    s'.local_hash = some data.checksum ∧
    s'.remote_hash = some data.checksum ∧
    s'.status = SyncStatus.SYNCED ∧
    s'.last_sync_at = some now := by
  unfold push_changes at h
  split at h
  · exact absurd h (by simp)
  · injection h with h1 h2 h3
    subst h2 h3
    simp

/-- **C2 witness**: the spec's fresh-entity scenario — `getOrCreate`
followed by a push with `claimedLocalVersion = 1` yields
`local_version = remote_version = base_version = 1` and status `SYNCED`. -/
theorem push_accept_advances_witness :
    (1 : Int) = Examples.freshPush.local_version ∧
    Examples.freshPushedState.local_version = Examples.freshPush.local_version ∧
    Examples.freshPushedState.remote_version = Examples.freshPush.local_version ∧
    Examples.freshPushedState.base_version = Examples.freshPush.local_version ∧
    Examples.freshPushedState.local_hash = some Examples.freshPush.checksum ∧
    Examples.freshPushedState.remote_hash = some Examples.freshPush.checksum ∧
    Examples.freshPushedState.status = SyncStatus.SYNCED ∧
    Examples.freshPushedState.last_sync_at = some 5 :=
  push_accept_advances Examples.freshState Examples.freshPush 5 "cid"
    true 1 Examples.freshPushedState rfl

/-- **C8.** A push rejected as a conflict leaves every version counter and
both hashes of the `SyncState` unchanged; the one field it writes is
`status`, set to `CONFLICT` — the updated row is exactly the old row with
`status := CONFLICT`. -/
theorem push_conflict_frame (sync_state : SyncState) (data : SyncPush)
    (now : Nat) (conflictId : String) (code : Nat) (c : SyncConflict)
    (s' : SyncState)
    (h : push_changes sync_state data now conflictId =
      PushResult.conflict code c s') :
    s'.local_version = sync_state.local_version ∧
    s'.remote_version = sync_state.remote_version ∧
    s'.base_version = sync_state.base_version ∧
    s'.local_hash = sync_state.local_hash ∧
    s'.remote_hash = sync_state.remote_hash ∧
    s'.status = SyncStatus.CONFLICT ∧
    s' = { sync_state with status := SyncStatus.CONFLICT } := by
  unfold push_changes at h
  split at h
  · injection h with h1 h2 h3
    subst h3
    simp
  · exact absurd h (by simp)

/-- **C8 witness**: the stale-basis scenario `base_version=5,
remote_version=7`, push claiming version 5, at concrete inputs. -/
theorem push_conflict_frame_witness :
    ((push_changes Examples.staleState Examples.stalePush 9 "cid9").state.local_version
        = Examples.staleState.local_version) ∧
    ((push_changes Examples.staleState Examples.stalePush 9 "cid9").state.remote_version
        = Examples.staleState.remote_version) ∧
    ((push_changes Examples.staleState Examples.stalePush 9 "cid9").state.base_version
        = Examples.staleState.base_version) ∧
    ((push_changes Examples.staleState Examples.stalePush 9 "cid9").state.local_hash
        = Examples.staleState.local_hash) ∧
    ((push_changes Examples.staleState Examples.stalePush 9 "cid9").state.remote_hash
        = Examples.staleState.remote_hash) ∧
    ((push_changes Examples.staleState Examples.stalePush 9 "cid9").state.status
        = SyncStatus.CONFLICT) ∧
    ((push_changes Examples.staleState Examples.stalePush 9 "cid9").state
        = { Examples.staleState with status := SyncStatus.CONFLICT }) :=
  push_conflict_frame Examples.staleState Examples.stalePush 9 "cid9"
    HTTP_409_CONFLICT
    { id := "cid9", sync_state_id := "s2", local_data := "localCipher"
      remote_data := "", detected_at := 9 }
    (push_changes Examples.staleState Examples.stalePush 9 "cid9").state rfl

/-- **C9.** Every `SyncConflict` row the push endpoint creates has
`remote_data = ""` (the code never consults the remote store) and
`base_data` unset; its `local_data` is the pushed payload and it starts
`pending`.  Consequently the payload a `remote_wins` resolution of such a
conflict would adopt — the conflict's `remote_data` — is the empty string,
not the actual remote ciphertext. -/
theorem push_conflict_empty_remote_data (sync_state : SyncState)
    (data : SyncPush) (now : Nat) (conflictId : String) (code : Nat)
    (c : SyncConflict) (s' : SyncState)
    (h : push_changes sync_state data now conflictId =
      PushResult.conflict code c s') :
    c.remote_data = "" ∧
    c.base_data = none ∧
    c.local_data = data.data ∧
    c.resolution = ConflictResolution.PENDING := by
  unfold push_changes at h
  split at h
  · injection h with h1 h2 h3
    subst h2
    simp
  · exact absurd h (by simp)

/-- **C9 witness**: the conflict row created by the stale-basis push at
concrete inputs. -/
theorem push_conflict_empty_remote_data_witness :
    ({ id := "cid9", sync_state_id := "s2", local_data := "localCipher"
       remote_data := "", detected_at := 9 } : SyncConflict).remote_data = "" ∧
    ({ id := "cid9", sync_state_id := "s2", local_data := "localCipher"
       remote_data := "", detected_at := 9 } : SyncConflict).base_data = none ∧
    ({ id := "cid9", sync_state_id := "s2", local_data := "localCipher"
       remote_data := "", detected_at := 9 } : SyncConflict).local_data
        = Examples.stalePush.data ∧
    ({ id := "cid9", sync_state_id := "s2", local_data := "localCipher"
       remote_data := "", detected_at := 9 } : SyncConflict).resolution
        = ConflictResolution.PENDING :=
  push_conflict_empty_remote_data Examples.staleState Examples.stalePush 9
    "cid9" HTTP_409_CONFLICT _
    { Examples.staleState with status := SyncStatus.CONFLICT } rfl

/-- **C3 counterexample.** At the concrete pending conflict on the row
`local_version=6, remote_version=7, base_version=5`, resolving with
`local_wins` does transition the status to `SYNCED`, but leaves
`base_version = 5 ≠ 6 = local_version`: the endpoint never touches
`base_version`, so the claimed `base_version ← local_version` (and the
`remote_wins` / `merged` update rules) do not hold. -/
theorem resolve_does_not_set_base_version :
    (applyOp Examples.conflictedState
      (SyncOp.resolve Examples.pendingConflict Examples.localWinsReq "uid" 9)).status
        = SyncStatus.SYNCED ∧
    (applyOp Examples.conflictedState
      (SyncOp.resolve Examples.pendingConflict Examples.localWinsReq "uid" 9)).base_version
        = 5 ∧
    Examples.conflictedState.local_version = 6 ∧
    ¬ (applyOp Examples.conflictedState
        (SyncOp.resolve Examples.pendingConflict Examples.localWinsReq "uid" 9)).base_version
          = Examples.conflictedState.local_version := by
  refine ⟨rfl, rfl, rfl, ?_⟩
  decide

/-- **C3 (amended).** `resolve` on a found conflict records the requested
resolution on the conflict row and sets the owning `SyncState`'s status to
`SYNCED`, but leaves `base_version` — and every other version counter —
unchanged, for every resolution kind (`local_wins`, `remote_wins`,
`merged` alike): the `base_version` update rules of the spec are not
implemented. -/
theorem resolve_sets_synced_versions_unchanged (conflict : SyncConflict)
    (sync_state : SyncState) (data : Schemas.ConflictResolution)
    (userId : String) (now : Nat) (conflict' : SyncConflict)
    (s' : SyncState) (ok : Bool)
    (h : resolve_conflict (some (conflict, sync_state)) data userId now =
      Except.ok (conflict', s', ok)) :
    s'.status = SyncStatus.SYNCED ∧
    s'.base_version = sync_state.base_version ∧
    s'.local_version = sync_state.local_version ∧
    s'.remote_version = sync_state.remote_version ∧
    conflict'.resolution = data.resolution ∧
    conflict'.resolved_at = some now := by
  unfold resolve_conflict at h
  injection h with h1
  injection h1 with hc hrest
  injection hrest with hs hok
  subst hc hs
  simp

/-- **C3 witness**: the amended statement at the concrete `local_wins`
resolution of the pending conflict. -/
theorem resolve_sets_synced_versions_unchanged_witness :
    ({ Examples.conflictedState with status := SyncStatus.SYNCED } : SyncState).status
        = SyncStatus.SYNCED ∧
    ({ Examples.conflictedState with status := SyncStatus.SYNCED } : SyncState).base_version
        = Examples.conflictedState.base_version ∧
    ({ Examples.conflictedState with status := SyncStatus.SYNCED } : SyncState).local_version
        = Examples.conflictedState.local_version ∧
    ({ Examples.conflictedState with status := SyncStatus.SYNCED } : SyncState).remote_version
        = Examples.conflictedState.remote_version ∧
    ({ Examples.pendingConflict with
        resolution := Examples.localWinsReq.resolution
        resolved_data := Examples.localWinsReq.resolved_data
        resolved_by_id := some "uid"
        resolved_at := some 9 } : SyncConflict).resolution
      = Examples.localWinsReq.resolution ∧
    ({ Examples.pendingConflict with
        resolution := Examples.localWinsReq.resolution
        resolved_data := Examples.localWinsReq.resolved_data
        resolved_by_id := some "uid"
        resolved_at := some 9 } : SyncConflict).resolved_at = some 9 :=
  resolve_sets_synced_versions_unchanged Examples.pendingConflict
    Examples.conflictedState Examples.localWinsReq "uid" 9 _ _ true rfl

/-- **C4 counterexample.** `resolvedConflict` is already terminal
(`resolution = local_wins`, not `pending`), yet a second resolve call with
`remote_wins` does not fail: it returns success and overwrites the
resolution fields of the conflict row — there is no idempotency guard. -/
theorem resolve_terminal_conflict_succeeds :
    Examples.resolvedConflict.resolution ≠ ConflictResolution.PENDING ∧
    resolve_conflict (some (Examples.resolvedConflict, Examples.conflictedState))
        Examples.remoteWinsReq "uid2" 11 =
      Except.ok
        ({ Examples.resolvedConflict with
            resolution := ConflictResolution.REMOTE_WINS
            resolved_data := none
            resolved_by_id := some "uid2"
            resolved_at := some 11 },
         { Examples.conflictedState with status := SyncStatus.SYNCED },
         true) := by
  exact ⟨by decide, rfl⟩

/-- **C4 (amended).** The resolve endpoint never inspects the conflict's
current `resolution`: every resolve call on a conflict found for the user
succeeds and overwrites the resolution fields (so resolving the same
conflict twice succeeds twice, the second call clobbering the first);
only a conflict id that is not found fails, with HTTP 404. -/
theorem resolve_has_no_pending_guard (conflict : SyncConflict)
    (sync_state : SyncState) (data : Schemas.ConflictResolution)
    (userId : String) (now : Nat) :
    (∃ conflict' s',
      resolve_conflict (some (conflict, sync_state)) data userId now =
        Except.ok (conflict', s', true) ∧
      conflict'.resolution = data.resolution ∧
      conflict'.resolved_by_id = some userId) ∧
    resolve_conflict none data userId now =
      Except.error HTTP_404_NOT_FOUND := by
  exact ⟨⟨_, _, rfl, rfl, rfl⟩, rfl⟩

/-- **C5 counterexample.** On the fully synced row at version 5, a push
claiming the lower version 3 is accepted (5 > 5 fails, so no conflict) and
sets `remote_version` to 3: `remote_version` decreases from 5 to 3. -/
theorem remote_version_decreases_on_low_push :
    (applyOp Examples.syncedState5
        (SyncOp.push Examples.lowVersionPush 7 "cid5")).remote_version = 3 ∧
    Examples.syncedState5.remote_version = 5 ∧
    (applyOp Examples.syncedState5
        (SyncOp.push Examples.lowVersionPush 7 "cid5")).remote_version <
      Examples.syncedState5.remote_version := by
  refine ⟨rfl, rfl, ?_⟩
  decide

/-- **C5 (amended).** Across any single push, pull or resolve step,
`remote_version` either stays exactly unchanged (pulls, conflict
resolutions, and pushes rejected as conflicts never write it) or the step
is an accepted push and `remote_version` becomes the client-claimed
`local_version` — which the endpoint does not require to exceed the old
`remote_version`, so `remote_version` can decrease. -/
theorem remote_version_step_characterization (s : SyncState) (op : SyncOp) :
    (applyOp s op).remote_version = s.remote_version ∨
    (∃ data now conflictId, op = SyncOp.push data now conflictId ∧
      ¬(s.remote_version > s.base_version ∧
        data.local_version ≤ s.base_version) ∧
      (applyOp s op).remote_version = data.local_version) := by
  cases op with
  | push data now conflictId =>
    by_cases h : s.remote_version > s.base_version ∧
        data.local_version ≤ s.base_version
    · left
      simp [applyOp, push_changes, h, PushResult.state]
    · right
      exact ⟨data, now, conflictId, rfl, h,
        by simp [applyOp, push_changes, h, PushResult.state]⟩
  | pull e => left; rfl
  | resolve conflict data userId now => left; rfl

/-! ## Crypto lemmas: UTF-8 -/

namespace Crypto

/-- Every byte a single scalar value encodes to is below 256. -/
theorem utf8EncodeChar_lt (c : Nat) (hv : Nat.isValidChar c) :
    ∀ b ∈ utf8EncodeChar c, b < 256 := by
  have hc : c < 0x110000 := by
    rcases hv with h | ⟨_, h⟩
    · omega
    · exact h
  unfold utf8EncodeChar
  intro b hb
  split at hb
  · simp at hb; omega
  · split at hb
    · simp at hb; rcases hb with h | h <;> omega
    · split at hb
      · simp at hb; rcases hb with h | h | h <;> omega
      · simp at hb; rcases hb with h | h | h | h <;> omega

/-- Decoding a single encoded scalar value peels it off the stream. -/
theorem utf8DecodeAux_encodeChar (c : Nat) (hv : Nat.isValidChar c)
    (rest : List Nat) :
    utf8DecodeAux (utf8EncodeChar c ++ rest) =
      (utf8DecodeAux rest).map (fun cs => c :: cs) := by
  by_cases h1 : c < 0x80
  · have he : utf8EncodeChar c = [c] := by
      unfold utf8EncodeChar; rw [if_pos h1]
    have hs : utf8DecodeStep c rest = some (c, 0) := by
      unfold utf8DecodeStep; rw [if_pos h1]
    rw [he]
    simp only [List.cons_append, List.nil_append]
    rw [utf8DecodeAux.eq_def]
    dsimp only
    rw [hs]
    rfl
  · by_cases h2 : c < 0x800
    · have he : utf8EncodeChar c = [0xC0 + c / 64, 0x80 + c % 64] := by
        unfold utf8EncodeChar; rw [if_neg h1, if_pos h2]
      have hs : utf8DecodeStep (0xC0 + c / 64) ((0x80 + c % 64) :: rest) =
          some (c, 1) := by
        unfold utf8DecodeStep
        rw [if_neg (by omega), if_neg (by omega), if_pos (by omega)]
        dsimp only
        rw [if_pos (by exact ⟨by omega, by omega⟩)]
        have hc : (0xC0 + c / 64 - 0xC0) * 64 + (0x80 + c % 64 - 0x80) = c := by
          omega
        rw [hc]
      rw [he]
      simp only [List.cons_append, List.nil_append]
      rw [utf8DecodeAux.eq_def]
      dsimp only
      rw [hs]
      rfl
    · by_cases h3 : c < 0x10000
      · have he : utf8EncodeChar c =
            [0xE0 + c / 4096, 0x80 + c / 64 % 64, 0x80 + c % 64] := by
          unfold utf8EncodeChar; rw [if_neg h1, if_neg h2, if_pos h3]
        have hs : utf8DecodeStep (0xE0 + c / 4096)
            ((0x80 + c / 64 % 64) :: (0x80 + c % 64) :: rest) =
            some (c, 2) := by
          unfold utf8DecodeStep
          rw [if_neg (by omega), if_neg (by omega), if_neg (by omega),
            if_pos (by omega)]
          dsimp only
          rw [if_pos (by exact ⟨by omega, by omega, by omega, by omega⟩)]
          have hc : (0xE0 + c / 4096 - 0xE0) * 4096 +
              (0x80 + c / 64 % 64 - 0x80) * 64 + (0x80 + c % 64 - 0x80) = c := by
            omega
          rw [hc]
          rw [if_pos (by rcases hv with h | ⟨h, _⟩ <;> omega)]
        rw [he]
        simp only [List.cons_append, List.nil_append]
        rw [utf8DecodeAux.eq_def]
        dsimp only
        rw [hs]
        rfl
      · have hc5 : c < 0x110000 := by
          rcases hv with h | ⟨_, h⟩
          · omega
          · exact h
        have he : utf8EncodeChar c =
            [0xF0 + c / 262144, 0x80 + c / 4096 % 64, 0x80 + c / 64 % 64,
             0x80 + c % 64] := by
          unfold utf8EncodeChar; rw [if_neg h1, if_neg h2, if_neg h3]
        have hs : utf8DecodeStep (0xF0 + c / 262144)
            ((0x80 + c / 4096 % 64) :: (0x80 + c / 64 % 64) ::
              (0x80 + c % 64) :: rest) = some (c, 3) := by
          unfold utf8DecodeStep
          rw [if_neg (by omega), if_neg (by omega), if_neg (by omega),
            if_neg (by omega), if_pos (by omega)]
          dsimp only
          rw [if_pos (by exact ⟨by omega, by omega, by omega, by omega,
            by omega, by omega⟩)]
          have hc : (0xF0 + c / 262144 - 0xF0) * 262144 +
              (0x80 + c / 4096 % 64 - 0x80) * 4096 +
              (0x80 + c / 64 % 64 - 0x80) * 64 + (0x80 + c % 64 - 0x80) = c := by
            omega
          rw [hc]
          rw [if_pos (by omega)]
        rw [he]
        simp only [List.cons_append, List.nil_append]
        rw [utf8DecodeAux.eq_def]
        dsimp only
        rw [hs]
        rfl

/-- Decoding the concatenated encodings of a character list yields its
code points. -/
theorem utf8DecodeAux_encode (l : List Char) :
    utf8DecodeAux (l.flatMap (fun ch => utf8EncodeChar ch.toNat)) =
      some (l.map (fun ch => ch.toNat)) := by
  induction l with
  | nil =>
    rw [List.flatMap_nil, utf8DecodeAux.eq_def]
    rfl
  | cons c cs ih =>
    rw [List.flatMap_cons, utf8DecodeAux_encodeChar c.toNat c.valid, ih]
    rfl

/-- UTF-8 round-trip at the `String` level:
`bytes.decode("utf-8")` of `s.encode("utf-8")` is `s`. -/
theorem utf8_roundtrip (s : String) : utf8Decode (utf8Encode s) = some s := by
  unfold utf8Decode utf8Encode
  rw [utf8DecodeAux_encode s.data]
  have h : ∀ l : List Char, (l.map (fun ch => ch.toNat)).map Char.ofNat = l := by
    intro l
    induction l with
    | nil => rfl
    | cons a t ih => simp only [List.map_cons, Char.ofNat_toNat, ih]
  show some (String.mk ((s.data.map (fun ch => ch.toNat)).map Char.ofNat)) = some s
  rw [h s.data]

/-! ## Crypto lemmas: base64 -/

/-- Every byte a single scalar value encodes to is below 256 (string
form). -/
theorem utf8Encode_lt (s : String) : ∀ b ∈ utf8Encode s, b < 256 := by
  intro b hb
  rw [utf8Encode, List.mem_flatMap] at hb
  obtain ⟨c, _, hc⟩ := hb
  exact utf8EncodeChar_lt c.toNat c.valid b hc

/-- Decoding the character of a 6-bit group recovers the group. -/
theorem b64SextetOf_b64CharOf : ∀ n, n < 64 → b64SextetOf (b64CharOf n) = some n := by
  decide

/-- No 6-bit group is encoded as the padding character. -/
theorem b64CharOf_ne_pad : ∀ n, n < 64 → ¬(b64CharOf n = '=') := by
  decide

/-- Base64 round-trip: decoding the encoding of any byte list returns
it. -/
theorem b64_roundtrip : ∀ l : List Nat, (∀ b ∈ l, b < 256) →
    b64Decode (b64Encode l) = some l := by
  intro l
  induction l using b64Encode.induct with
  | case1 =>
    intro _
    rfl
  | case2 b0 =>
    intro hb
    have h0 : b0 < 256 := hb b0 (by simp)
    rw [b64Encode, b64Decode.eq_def]
    dsimp only
    rw [if_pos ⟨rfl, rfl, rfl⟩]
    rw [b64SextetOf_b64CharOf _ (by omega), b64SextetOf_b64CharOf _ (by omega)]
    dsimp only
    have : b0 / 4 * 4 + b0 % 4 * 16 / 16 = b0 := by omega
    rw [this]
  | case3 b0 b1 =>
    intro hb
    have h0 : b0 < 256 := hb b0 (by simp)
    have h1 : b1 < 256 := hb b1 (by simp)
    rw [b64Encode, b64Decode.eq_def]
    dsimp only
    rw [if_neg (fun hcon => b64CharOf_ne_pad (b1 % 16 * 4) (by omega) hcon.1)]
    rw [if_pos ⟨rfl, rfl⟩]
    rw [b64SextetOf_b64CharOf _ (by omega), b64SextetOf_b64CharOf _ (by omega),
      b64SextetOf_b64CharOf _ (by omega)]
    dsimp only
    have e0 : b0 / 4 * 4 + (b0 % 4 * 16 + b1 / 16) / 16 = b0 := by omega
    have e1 : (b0 % 4 * 16 + b1 / 16) % 16 * 16 + b1 % 16 * 4 / 4 = b1 := by
      omega
    rw [e0, e1]
  | case4 b0 b1 b2 rest ih =>
    intro hb
    have h0 : b0 < 256 := hb b0 (by simp)
    have h1 : b1 < 256 := hb b1 (by simp)
    have h2 : b2 < 256 := hb b2 (by simp)
    rw [b64Encode, b64Decode.eq_def]
    dsimp only
    rw [if_neg (fun hcon =>
      b64CharOf_ne_pad (b1 % 16 * 4 + b2 / 64) (by omega) hcon.1)]
    rw [if_neg (fun hcon => b64CharOf_ne_pad (b2 % 64) (by omega) hcon.1)]
    rw [b64SextetOf_b64CharOf _ (by omega), b64SextetOf_b64CharOf _ (by omega),
      b64SextetOf_b64CharOf _ (by omega), b64SextetOf_b64CharOf _ (by omega)]
    rw [ih (fun b hbm => hb b (by simp [hbm]))]
    dsimp only
    have e0 : b0 / 4 * 4 + (b0 % 4 * 16 + b1 / 16) / 16 = b0 := by omega
    have e1 : (b0 % 4 * 16 + b1 / 16) % 16 * 16 +
        (b1 % 16 * 4 + b2 / 64) / 4 = b1 := by omega
    have e2 : (b1 % 16 * 4 + b2 / 64) % 4 * 64 + b2 % 64 = b2 := by omega
    rw [e0, e1, e2]

/-! ## Crypto lemmas: lengths and byte bounds -/

/-- A left fold preserves any invariant its step preserves. -/
theorem foldl_preserve {α β : Type} {P : α → Prop} {f : α → β → α}
    (hf : ∀ a b, P a → P (f a b)) :
    ∀ (l : List β) (a : α), P a → P (l.foldl f a)
  | [], _, ha => ha
  | b :: t, a, ha => foldl_preserve hf t (f a b) (hf a b ha)

/-- `xorBytes` truncates to the shorter operand. -/
theorem xorBytes_length (a b : List Nat) :
    (xorBytes a b).length = min a.length b.length :=
  List.length_zipWith _ _ _

/-- XOR of two byte lists is a byte list. -/
theorem xorBytes_lt :
    ∀ a b : List Nat, (∀ x ∈ a, x < 256) → (∀ x ∈ b, x < 256) →
      ∀ x ∈ xorBytes a b, x < 256
  | [], _, _, _ => by simp [xorBytes]
  | _ :: _, [], _, _ => by simp [xorBytes]
  | x :: t, y :: u, ha, hb => by
    intro z hz
    rw [xorBytes, List.zipWith_cons_cons] at hz
    rcases List.mem_cons.mp hz with h | h
    · subst h
      have h1 : x < 2 ^ 8 := ha x (by simp)
      have h2 : y < 2 ^ 8 := hb y (by simp)
      exact Nat.xor_lt_two_pow h1 h2
    · exact xorBytes_lt t u (fun w hw => ha w (by simp [hw]))
        (fun w hw => hb w (by simp [hw])) z h

/-- The length of a `flatMap` whose pieces all have length `k`. -/
theorem flatMap_const_length {α : Type} (f : α → List Nat) (k : Nat) :
    ∀ l : List α, (∀ a ∈ l, (f a).length = k) →
      (l.flatMap f).length = k * l.length
  | [], _ => by simp
  | a :: t, h => by
    rw [List.flatMap_cons, List.length_append, h a (by simp),
      flatMap_const_length f k t (fun b hb => h b (by simp [hb])),
      List.length_cons, Nat.mul_succ]
    omega

/-- One compression round preserves the state width. -/
theorem sha256Round_length (st : List Nat) (kw : Nat) :
    (sha256Round st kw).length = st.length := by
  rw [sha256Round.eq_def]
  split <;> simp_all

/-- The compression function keeps the 8-word chaining value. -/
theorem sha256Compress_length (h block : List Nat) (hh : h.length = 8) :
    (sha256Compress h block).length = 8 := by
  unfold sha256Compress
  have hst : ((List.zipWith (fun k w => w32 (k + w)) sha256K
      (sha256Schedule (toWords block))).foldl sha256Round h).length = 8 :=
    foldl_preserve (P := fun st : List Nat => st.length = 8)
      (fun a b hab => by
        show (sha256Round a b).length = 8
        rw [sha256Round_length]; exact hab)
      _ h hh
  rw [List.length_zipWith, hh, hst]
  rfl

/-- Iterated compression keeps the 8-word chaining value. -/
theorem sha256Blocks_length :
    ∀ (l h : List Nat), h.length = 8 → (sha256Blocks h l).length = 8
  | [], h, hh => by
    rw [sha256Blocks.eq_def]
    exact hh
  | b :: rest, h, hh => by
    rw [sha256Blocks.eq_def]
    exact sha256Blocks_length _ _ (sha256Compress_length h _ hh)
termination_by l => l.length
decreasing_by simp [List.length_drop]; omega

/-- A SHA-256 digest is 32 bytes. -/
theorem sha256_length (msg : List Nat) : (sha256 msg).length = 32 := by
  rw [sha256, flatMap_const_length wordBytes 4 _ (fun a _ => rfl),
    sha256Blocks_length (sha256Pad msg) sha256H0 (by rfl)]

/-- The four big-endian bytes of a word are bytes. -/
theorem wordBytes_lt (w : Nat) : ∀ b ∈ wordBytes w, b < 256 := by
  intro b hb
  simp only [wordBytes, List.mem_cons, List.not_mem_nil, or_false] at hb
  rcases hb with h | h | h | h <;> omega

/-- A SHA-256 digest is a byte list. -/
theorem sha256_lt (msg : List Nat) : ∀ b ∈ sha256 msg, b < 256 := by
  intro b hb
  rw [sha256, List.mem_flatMap] at hb
  obtain ⟨w, _, hw⟩ := hb
  exact wordBytes_lt w b hw

/-- An HMAC-SHA256 tag is 32 bytes. -/
theorem hmacSha256_length (key msg : List Nat) :
    (hmacSha256 key msg).length = 32 := by
  unfold hmacSha256
  exact sha256_length _

/-- An HMAC-SHA256 tag is a byte list. -/
theorem hmacSha256_lt (key msg : List Nat) :
    ∀ b ∈ hmacSha256 key msg, b < 256 := by
  unfold hmacSha256
  exact sha256_lt _

/-- Each PBKDF2 block is 32 bytes. -/
theorem pbkdf2F_length (p s : List Nat) (c i : Nat) :
    (pbkdf2F p s c i).length = 32 := by
  unfold pbkdf2F
  exact foldl_preserve
    (P := fun acc : List Nat × List Nat => acc.1.length = 32)
    (fun a b hab => by
      show (xorBytes a.1 (hmacSha256 p a.2)).length = 32
      rw [xorBytes_length, hab, hmacSha256_length]
      rfl)
    (List.range (c - 1)) _ (hmacSha256_length _ _)

/-- Each PBKDF2 block is a byte list. -/
theorem pbkdf2F_lt (p s : List Nat) (c i : Nat) :
    ∀ b ∈ pbkdf2F p s c i, b < 256 := by
  unfold pbkdf2F
  exact foldl_preserve
    (P := fun acc : List Nat × List Nat => ∀ x ∈ acc.1, x < 256)
    (fun a b hab => by
      show ∀ x ∈ xorBytes a.1 (hmacSha256 p a.2), x < 256
      exact xorBytes_lt _ _ hab (hmacSha256_lt _ _))
    (List.range (c - 1)) _ (hmacSha256_lt _ _)

/-- A PBKDF2 key with `dklen = 32` is 32 bytes. -/
theorem pbkdf2_32_length (p s : List Nat) (iters : Nat) :
    (pbkdf2HmacSha256 p s iters 32).length = 32 := by
  unfold pbkdf2HmacSha256
  rw [List.length_take]
  rw [show List.range ((32 + 31) / 32) = [0] from rfl,
    List.flatMap_cons, List.flatMap_nil, List.length_append,
    pbkdf2F_length]
  rfl

/-- A PBKDF2 key is a byte list. -/
theorem pbkdf2_lt (p s : List Nat) (iters dklen : Nat) :
    ∀ b ∈ pbkdf2HmacSha256 p s iters dklen, b < 256 := by
  intro b hb
  unfold pbkdf2HmacSha256 at hb
  have hb2 := List.mem_of_mem_take hb
  rw [List.mem_flatMap] at hb2
  obtain ⟨i, _, hi⟩ := hb2
  exact pbkdf2F_lt p s iters (i + 1) b hi

/-! ## Crypto lemmas: AES-256-GCM -/

/-- `getD` with in-range list elements and default stays in range. -/
theorem getD_lt_of_all {l : List Nat} {d : Nat} (hl : ∀ x ∈ l, x < 256)
    (hd : d < 256) (n : Nat) : l.getD n d < 256 := by
  rw [List.getD]
  cases h : l.get? n with
  | none => exact hd
  | some x => exact hl x (List.get?_mem h)

set_option maxRecDepth 4000 in
/-- Every S-box entry is a byte. -/
theorem sbox_all_lt : ∀ x ∈ sbox, x < 256 := by decide

/-- S-box substitution yields a byte for any input. -/
theorem subByte_lt (b : Nat) : subByte b < 256 :=
  getD_lt_of_all sbox_all_lt (by omega) b

/-- `xtime` yields a byte for any input. -/
theorem xtime_lt (b : Nat) : xtime b < 256 := by
  unfold xtime
  omega

/-- `rotWord` keeps a 4-byte word. -/
theorem rotWord_length (w : List Nat) (h : w.length = 4) :
    (rotWord w).length = 4 := by
  rw [rotWord.eq_def]
  split <;> simp_all

/-- `rotWord` permutes, so byte bounds persist. -/
theorem rotWord_lt (w : List Nat) (hw : ∀ b ∈ w, b < 256) :
    ∀ b ∈ rotWord w, b < 256 := by
  rw [rotWord.eq_def]
  split
  · next a b c d =>
    intro x hx
    simp only [List.mem_cons, List.not_mem_nil, or_false] at hx
    rcases hx with h | h | h | h <;> subst h <;>
      exact hw _ (by simp)
  · next => exact hw

/-- `subWord` yields bytes for any input. -/
theorem subWord_lt (w : List Nat) : ∀ b ∈ subWord w, b < 256 := by
  intro b hb
  obtain ⟨x, _, hx⟩ := List.mem_map.mp hb
  rw [← hx]
  exact subByte_lt x

/-- `subWord` keeps the word length. -/
theorem subWord_length (w : List Nat) : (subWord w).length = w.length :=
  List.length_map _ _

/-- A round-constant word is 4 bytes. -/
theorem rconWord_length (i : Nat) : (rconWord i).length = 4 := rfl

/-- Round-constant words hold bytes. -/
theorem rconWord_lt (i : Nat) : ∀ b ∈ rconWord i, b < 256 := by
  intro b hb
  simp only [rconWord, List.mem_cons, List.not_mem_nil, or_false] at hb
  rcases hb with h | h | h | h
  · subst h
    exact getD_lt_of_all (by decide) (by omega) _
  all_goals omega

/-- Every key-schedule word of a 32-byte key is 4 bytes wide. -/
theorem keyWord_length (key : List Nat) (hk : key.length = 32) :
    ∀ i, (keyWord key i).length = 4 := by
  intro i
  induction i using Nat.strong_induction_on with
  | _ i ih =>
    rw [keyWord.eq_def]
    split
    · next h8 =>
      rw [List.length_take, List.length_drop, hk]
      omega
    · next h8 =>
      split
      · rw [xorBytes_length, xorBytes_length, ih (i - 8) (by omega),
          subWord_length, rotWord_length _ (ih (i - 1) (by omega)),
          rconWord_length]
        omega
      · split
        · rw [xorBytes_length, ih (i - 8) (by omega), subWord_length,
            ih (i - 1) (by omega)]
          omega
        · rw [xorBytes_length, ih (i - 8) (by omega), ih (i - 1) (by omega)]
          omega

/-- Every key-schedule word of a byte-valued key holds bytes. -/
theorem keyWord_lt (key : List Nat) (hkb : ∀ b ∈ key, b < 256) :
    ∀ i, ∀ b ∈ keyWord key i, b < 256 := by
  intro i
  induction i using Nat.strong_induction_on with
  | _ i ih =>
    rw [keyWord.eq_def]
    split
    · next h8 =>
      intro b hb
      exact hkb b (List.mem_of_mem_drop (List.mem_of_mem_take hb))
    · next h8 =>
      split
      · exact xorBytes_lt _ _ (ih (i - 8) (by omega))
          (xorBytes_lt _ _ (subWord_lt _) (rconWord_lt _))
      · split
        · exact xorBytes_lt _ _ (ih (i - 8) (by omega)) (subWord_lt _)
        · exact xorBytes_lt _ _ (ih (i - 8) (by omega)) (ih (i - 1) (by omega))

/-- A round key of a 32-byte key is 16 bytes wide. -/
theorem roundKey_length (key : List Nat) (hk : key.length = 32) (r : Nat) :
    (roundKey key r).length = 16 := by
  unfold roundKey
  rw [List.length_append, List.length_append, List.length_append,
    keyWord_length key hk, keyWord_length key hk, keyWord_length key hk,
    keyWord_length key hk]

/-- A round key of a byte-valued key holds bytes. -/
theorem roundKey_lt (key : List Nat) (hkb : ∀ b ∈ key, b < 256) (r : Nat) :
    ∀ b ∈ roundKey key r, b < 256 := by
  intro b hb
  unfold roundKey at hb
  simp only [List.mem_append] at hb
  rcases hb with ((h | h) | h) | h <;> exact keyWord_lt key hkb _ b h

/-- `subBytes` yields bytes for any input. -/
theorem subBytes_lt (st : List Nat) : ∀ b ∈ subBytes st, b < 256 :=
  subWord_lt st

/-- `shiftRows` always yields a 16-byte state. -/
theorem shiftRows_length (s : List Nat) : (shiftRows s).length = 16 := rfl

/-- `shiftRows` reads only state bytes (or the zero default). -/
theorem shiftRows_lt (s : List Nat) (hs : ∀ b ∈ s, b < 256) :
    ∀ b ∈ shiftRows s, b < 256 := by
  intro b hb
  unfold shiftRows at hb
  simp only [List.mem_cons, List.not_mem_nil, or_false] at hb
  rcases hb with h | h | h | h | h | h | h | h | h | h | h | h | h | h | h | h <;>
    (subst h; exact getD_lt_of_all hs (by omega) _)

/-- An AES block output of a 32-byte key is 16 bytes. -/
theorem aesBlock_length (key block : List Nat) (hk : key.length = 32) :
    (aesBlock key block).length = 16 := by
  unfold aesBlock
  rw [xorBytes_length, shiftRows_length, roundKey_length key hk]
  omega

/-- An AES block output of a byte-valued key holds bytes. -/
theorem aesBlock_lt (key block : List Nat) (hkb : ∀ b ∈ key, b < 256) :
    ∀ b ∈ aesBlock key block, b < 256 := by
  unfold aesBlock
  exact xorBytes_lt _ _ (shiftRows_lt _ (subBytes_lt _)) (roundKey_lt key hkb 14)

/-- The CTR keystream has exactly the requested length. -/
theorem ctrKeystream_length (key nonce : List Nat) (n : Nat)
    (hk : key.length = 32) : (ctrKeystream key nonce n).length = n := by
  unfold ctrKeystream
  rw [List.length_take,
    flatMap_const_length _ 16 _ (fun a _ => aesBlock_length key _ hk),
    List.length_range]
  omega

/-- The CTR keystream holds bytes. -/
theorem ctrKeystream_lt (key nonce : List Nat) (n : Nat)
    (hkb : ∀ b ∈ key, b < 256) : ∀ b ∈ ctrKeystream key nonce n, b < 256 := by
  intro b hb
  unfold ctrKeystream at hb
  have hb2 := List.mem_of_mem_take hb
  rw [List.mem_flatMap] at hb2
  obtain ⟨i, _, hi⟩ := hb2
  exact aesBlock_lt key _ hkb b hi

/-- The 16 big-endian bytes of a 128-bit value are 16 bytes. -/
theorem nat128Bytes_length (n : Nat) : (nat128Bytes n).length = 16 := by
  unfold nat128Bytes
  rw [List.length_map, List.length_range]

/-- The 16 big-endian bytes of a 128-bit value are bytes. -/
theorem nat128Bytes_lt (n : Nat) : ∀ b ∈ nat128Bytes n, b < 256 := by
  intro b hb
  unfold nat128Bytes at hb
  obtain ⟨i, _, hi⟩ := List.mem_map.mp hb
  omega

/-- A GCM tag of a 32-byte key is 16 bytes. -/
theorem gcmTag_length (key nonce ct : List Nat) (hk : key.length = 32) :
    (gcmTag key nonce ct).length = 16 := by
  unfold gcmTag
  rw [xorBytes_length, aesBlock_length key _ hk, nat128Bytes_length]
  omega

/-- A GCM tag of a byte-valued key holds bytes. -/
theorem gcmTag_lt (key nonce ct : List Nat) (hkb : ∀ b ∈ key, b < 256) :
    ∀ b ∈ gcmTag key nonce ct, b < 256 := by
  unfold gcmTag
  exact xorBytes_lt _ _ (aesBlock_lt key _ hkb) (nat128Bytes_lt _)

/-- XOR-ing the same list twice is the identity (equal lengths). -/
theorem xorBytes_cancel :
    ∀ a b : List Nat, a.length = b.length →
      xorBytes (xorBytes a b) b = a
  | [], [], _ => rfl
  | [], _ :: _, h => by simp at h
  | _ :: _, [], h => by simp at h
  | x :: t, y :: u, h => by
    simp only [List.length_cons, Nat.add_right_cancel_iff] at h
    show (x ^^^ y ^^^ y) :: xorBytes (xorBytes t u) u = x :: t
    rw [Nat.xor_cancel_right, xorBytes_cancel t u h]

/-- AES-GCM round-trip: decrypting an encryption returns the
plaintext. -/
theorem aesgcm_roundtrip (key nonce pt : List Nat) (hk : key.length = 32) :
    aesgcmDecrypt key nonce (aesgcmEncrypt key nonce pt) = some pt := by
  unfold aesgcmEncrypt aesgcmDecrypt
  have hks : (ctrKeystream key nonce pt.length).length = pt.length :=
    ctrKeystream_length key nonce pt.length hk
  have hct : (xorBytes pt (ctrKeystream key nonce pt.length)).length =
      pt.length := by
    rw [xorBytes_length, hks]
    omega
  have htag : (gcmTag key nonce
      (xorBytes pt (ctrKeystream key nonce pt.length))).length = 16 :=
    gcmTag_length key nonce _ hk
  rw [List.length_append, hct, htag]
  rw [if_neg (by omega)]
  rw [show pt.length + 16 - 16 = pt.length from by omega]
  rw [List.take_left' hct, List.drop_left' hct]
  rw [if_pos rfl]
  rw [hct]
  rw [xorBytes_cancel pt _ hks.symm]

/-- Concatenation preserves byte bounds. -/
theorem append_lt {a b : List Nat} (ha : ∀ x ∈ a, x < 256)
    (hb : ∀ x ∈ b, x < 256) : ∀ x ∈ a ++ b, x < 256 := by
  intro x hx
  rcases List.mem_append.mp hx with h | h
  · exact ha x h
  · exact hb x h

/-- An AES-GCM ciphertext (with tag) of byte-valued inputs holds
bytes. -/
theorem aesgcmEncrypt_lt (key nonce pt : List Nat)
    (hkb : ∀ b ∈ key, b < 256) (hpt : ∀ b ∈ pt, b < 256) :
    ∀ b ∈ aesgcmEncrypt key nonce pt, b < 256 := by
  unfold aesgcmEncrypt
  exact append_lt
    (xorBytes_lt _ _ hpt (ctrKeystream_lt _ _ _ hkb))
    (gcmTag_lt _ _ _ hkb)

end Crypto

namespace Security

open Crypto

/-- Server-side wire-format round-trip: `decrypt_string` inverts
`encrypt_string` for any 32-bit-valid key and 12-byte nonce. -/
theorem decrypt_encrypt_string (p : String) (key nonce : List Nat)
    (hk : key.length = 32) (hkb : ∀ b ∈ key, b < 256)
    (hn : nonce.length = 12) (hnb : ∀ b ∈ nonce, b < 256) :
    decrypt_string (encrypt_string p key nonce) key = some p := by
  unfold encrypt_string decrypt_string encrypt_data decrypt_data
  dsimp only
  rw [b64_roundtrip _ (append_lt hnb
    (aesgcmEncrypt_lt key nonce _ hkb (utf8Encode_lt p)))]
  dsimp only
  rw [List.take_left' hn, List.drop_left' hn]
  rw [aesgcm_roundtrip key nonce (utf8Encode p) hk]
  dsimp only
  rw [utf8_roundtrip]

end Security

namespace CryptoHelper

open Crypto

/-- CLI round-trip: `CryptoHelper.decrypt` inverts
`CryptoHelper.encrypt` for any 32-byte-valid key and byte-valued
nonce. -/
theorem decrypt_encrypt (p : String) (key nonce : List Nat)
    (hk : key.length = 32) (hkb : ∀ b ∈ key, b < 256)
    (hnb : ∀ b ∈ nonce, b < 256) :
    decrypt key (encrypt key p nonce).1 (encrypt key p nonce).2 = some p := by
  unfold encrypt decrypt
  dsimp only
  rw [b64_roundtrip _ (aesgcmEncrypt_lt key nonce _ hkb (utf8Encode_lt p))]
  rw [b64_roundtrip _ hnb]
  dsimp only
  rw [aesgcm_roundtrip key nonce (utf8Encode p) hk]
  dsimp only
  rw [utf8_roundtrip]

end CryptoHelper

/-- Characterization of the per-entity pull step: it yields an update
exactly when a sync state exists for the entity and its `remote_version`
strictly exceeds the version declared by the caller (`0` when the request
omits the key), and the update then carries the stored `remote_version`
and the stub payload `""`. -/
theorem pullEntry_eq_some_iff (store : String → String → Option SyncState)
    (e : PullEntity) (u : PullUpdate) :
    pullEntry store e = some u ↔
      ∃ s, store e.type e.id = some s ∧
        e.version.getD 0 < s.remote_version ∧
        u = { type := e.type, id := e.id, version := s.remote_version
              data := "" } := by
  unfold pullEntry
  cases hs : store e.type e.id with
  | none => simp
  | some s =>
    by_cases hv : e.version.getD 0 < s.remote_version
    · simp only [hv, if_pos, Option.some.injEq]
      constructor
      · intro hu
        exact ⟨s, rfl, hv, hu.symm⟩
      · rintro ⟨s', hs', hv', hu⟩
        cases hs'
        exact hu.symm
    · simp only [hv, if_neg, not_false_iff]
      constructor
      · intro hu
        exact absurd hu (by simp)
      · rintro ⟨s', hs', hv', hu⟩
        cases hs'
        exact absurd hv' hv

/-- **C6.** The batch pull response contains an update for an entity if
and only if the stored `remote_version` for that entity is strictly
greater than the version declared by the caller (`0` when the request
omits the key); in particular an entity whose stored `remote_version`
equals the declared version contributes no update. -/
theorem pull_update_mem_iff (store : String → String → Option SyncState)
    (entities : List PullEntity) (u : PullUpdate) :
    u ∈ pull_changes store entities ↔
      ∃ e ∈ entities, ∃ s, store e.type e.id = some s ∧
        e.version.getD 0 < s.remote_version ∧
        u = { type := e.type, id := e.id, version := s.remote_version
              data := "" } := by
  unfold pull_changes
  rw [List.mem_filterMap]
  constructor
  · rintro ⟨e, he, hu⟩
    exact ⟨e, he, (pullEntry_eq_some_iff store e u).mp hu⟩
  · rintro ⟨e, he, hrest⟩
    exact ⟨e, he, (pullEntry_eq_some_iff store e u).mpr hrest⟩

/-- **C7.** For every plaintext string `p` (empty, unicode or arbitrarily
long) and every key derived from a `(password, salt)` pair, decrypting
the encryption of `p` under that key returns exactly `p` — on the server
wire format (`encrypt_string`/`decrypt_string`, payload
`base64(nonce ∥ ciphertext)`) and on the CLI
(`CryptoHelper.encrypt`/`CryptoHelper.decrypt`, separate base64 value and
nonce).  The fresh random nonce is any 12-byte string. -/
theorem encrypt_decrypt_roundtrip (password : String) (salt : List Nat)
    (p : String) (nonce : List Nat) (hn : nonce.length = 12)
    (hnb : ∀ b ∈ nonce, b < 256) :
    Security.decrypt_string
        (Security.encrypt_string p (Security.derive_key password salt) nonce)
        (Security.derive_key password salt) = some p ∧
    CryptoHelper.decrypt (CryptoHelper._derive_key password salt)
        (CryptoHelper.encrypt (CryptoHelper._derive_key password salt) p nonce).1
        (CryptoHelper.encrypt (CryptoHelper._derive_key password salt) p nonce).2 =
      some p := by
  constructor
  · exact Security.decrypt_encrypt_string p _ nonce
      (Crypto.pbkdf2_32_length _ _ _) (Crypto.pbkdf2_lt _ _ _ _) hn hnb
  · exact CryptoHelper.decrypt_encrypt p _ nonce
      (Crypto.pbkdf2_32_length _ _ _) (Crypto.pbkdf2_lt _ _ _ _) hnb

/-- **C7 witness**: the round-trip instantiated at the concrete password
`"pw"`, salt `[1, 2, 3]`, plaintext `"hi"` and a concrete 12-byte
nonce. -/
theorem encrypt_decrypt_roundtrip_witness :
    Security.decrypt_string
        (Security.encrypt_string "hi" (Security.derive_key "pw" [1, 2, 3])
          [0, 1, 2, 3, 4, 5, 6, 7, 8, 9, 10, 11])
        (Security.derive_key "pw" [1, 2, 3]) = some "hi" ∧
    CryptoHelper.decrypt (CryptoHelper._derive_key "pw" [1, 2, 3])
        (CryptoHelper.encrypt (CryptoHelper._derive_key "pw" [1, 2, 3]) "hi"
          [0, 1, 2, 3, 4, 5, 6, 7, 8, 9, 10, 11]).1
        (CryptoHelper.encrypt (CryptoHelper._derive_key "pw" [1, 2, 3]) "hi"
          [0, 1, 2, 3, 4, 5, 6, 7, 8, 9, 10, 11]).2 = some "hi" :=
  encrypt_decrypt_roundtrip "pw" [1, 2, 3] "hi"
    [0, 1, 2, 3, 4, 5, 6, 7, 8, 9, 10, 11] (by decide) (by decide)

/-- **C10.** The CLI key derivation `CryptoHelper._derive_key` and the
server key derivation `derive_key` agree on every `(password, salt)`
pair — both are PBKDF2-HMAC-SHA256 of the UTF-8 password with 100000
iterations and `dklen = 32` — and the common key is 32 bytes long. -/
theorem derive_key_implementations_agree (password : String)
    (salt : List Nat) :
    CryptoHelper._derive_key password salt =
      Security.derive_key password salt ∧
    (CryptoHelper._derive_key password salt).length = 32 :=
  ⟨rfl, Crypto.pbkdf2_32_length _ _ _⟩

end EnvSync
